import Mathlib

/-
Verification of the delivery-bot's core logic: pricing and validation
(`order_handlers.py`), the YAML-backed entity store (`data_manager.py`),
and the cart / reorder / cancellation handlers (`user_handlers.py`).

Python dictionaries become structures; `dict.get(key, default)` on an
optional field becomes `Option.getD`; money amounts (Python floats) become
exact rationals; timestamps that the code only ever compares become
integers (or seconds-of-day naturals for times of day); the mutable
per-file collections become lists threaded through explicit state.
-/

namespace Dostavka

/-- One cart line item, as built by `add_to_cart_callback`:
`{'product_id': …, 'product_name': …, 'price': …, 'quantity': …}`. -/
structure CartItem where
  product_id : Int
  product_name : String
  price : Rat
  quantity : Int
deriving DecidableEq, Repr

/-- The dictionary returned by `calculate_order_totals`. -/
structure Totals where
  subtotal : Rat
  delivery_cost : Rat
  discount : Rat
  total : Rat
deriving DecidableEq, Repr

/-- `sum(item['price'] * item['quantity'] for item in cart)`, the subtotal
expression shared by `calculate_order_totals` and `validate_order`. -/
def cart_subtotal (cart : List CartItem) : Rat :=
  (cart.map fun item => item.price * (item.quantity : Rat)).sum

/-- `calculate_order_totals` from `order_handlers.py` (lines 84-95). -/
def calculate_order_totals (cart : List CartItem) (delivery_cost : Rat := 0)
    (discount : Rat := 0) : Totals :=
  let subtotal := cart_subtotal cart
  let total := subtotal + delivery_cost - discount
  { subtotal := subtotal
    delivery_cost := delivery_cost
    discount := discount
    total := max 0 total }

/-- Decimal digits to a number, `none` as soon as a non-digit appears. -/
def digitsToNat (cs : List Char) : Option Nat :=
  cs.foldl
    (fun acc c =>
      match acc with
      | some n => if c.isDigit then some (n * 10 + (c.toNat - 48)) else none
      | none => none)
    (some 0)

/-- `datetime.strptime(s, '%H:%M').time()`, modelled as seconds of day:
the string must be two digit fields around one colon (one or two digits per
field, hour 0-23, minute 0-59); anything else raises `ValueError`,
i.e. yields `none`. -/
def parseHM (s : String) : Option Nat :=
  let cs := s.toList
  let h := cs.takeWhile (fun c => c ≠ ':')
  match cs.dropWhile (fun c => c ≠ ':') with
  | ':' :: m =>
    if m.contains ':' then none
    else
      match digitsToNat h, digitsToNat m with
      | some hv, some mv =>
        if 1 ≤ h.length ∧ h.length ≤ 2 ∧ 1 ≤ m.length ∧ m.length ≤ 2
            ∧ hv ≤ 23 ∧ mv ≤ 59 then
          some (hv * 3600 + mv * 60)
        else none
      | _, _ => none
  | _ => none

/-- `is_order_within_working_hours` from `order_handlers.py` (lines 109-130).
`now` is the current time as seconds of day (`datetime.now().time()` carries
seconds, the parsed bounds have zero seconds); a parse failure of either
configured bound lands in the `except ValueError` branch, which returns
`True`. -/
def is_order_within_working_hours (start_str end_str : String) (now : Nat) : Bool :=
  match parseHM start_str, parseHM end_str with
  | some start_time, some end_time =>
    if start_time ≤ end_time then
      decide (start_time ≤ now) && decide (now ≤ end_time)
    else
      -- Handles overnight working hours (e.g., 22:00 - 02:00)
      decide (now ≥ start_time) || decide (now ≤ end_time)
  | _, _ => true

/-- The delivery section of `settings.yaml` as `validate_order` reads it. -/
structure DeliveryConfig where
  min_order_amount : Rat
  wh_start : String
  wh_end : String
deriving DecidableEq, Repr

/-- The three distinct rejection messages `validate_order` can return
("Корзина пуста", "Минимальная сумма заказа: …", "Мы работаем с … до …"). -/
inductive OrderRejection where
  | emptyCart
  | belowMinimum
  | outsideHours
deriving DecidableEq, Repr

/-- `validate_order` from `order_handlers.py` (lines 133-153); `none` is the
`(True, None)` success result, `some e` the `(False, message)` rejection. -/
def validate_order (cart : List CartItem) (cfg : DeliveryConfig) (now : Nat) :
    Option OrderRejection :=
  if cart = [] then some .emptyCart
  else
    let subtotal := cart_subtotal cart
    if subtotal < cfg.min_order_amount then some .belowMinimum
    else if ¬ is_order_within_working_hours cfg.wh_start cfg.wh_end now then
      some .outsideHours
    else none

/-- **C1.** `calculate_order_totals` returns the cart's Σ price·quantity as
subtotal, echoes the delivery cost and discount unchanged, returns
`total = max 0 (subtotal + delivery − discount)`, and that total is never
negative. (The function is total — the Lean embedding shows it never
throws on any cart.) -/
theorem calculate_order_totals_spec (cart : List CartItem)
    (delivery_cost discount : Rat) :
    (calculate_order_totals cart delivery_cost discount).subtotal =
        (cart.map fun item => item.price * (item.quantity : Rat)).sum ∧
    (calculate_order_totals cart delivery_cost discount).delivery_cost =
        delivery_cost ∧
    (calculate_order_totals cart delivery_cost discount).discount = discount ∧
    (calculate_order_totals cart delivery_cost discount).total =
        max 0 (cart_subtotal cart + delivery_cost - discount) ∧
    0 ≤ (calculate_order_totals cart delivery_cost discount).total := by
  refine ⟨rfl, rfl, rfl, rfl, ?_⟩
  exact le_max_left 0 _

/-- **C8.** `is_order_within_working_hours`: with both bounds parsed, a
non-inverted window means `start ≤ now ≤ end`, an inverted window wraps past
midnight and means `now ≥ start ∨ now ≤ end`; a malformed bound makes the
check return `true` (fails open); and 23:30 lies within the 22:00–02:00
window. -/
theorem working_hours_spec :
    (∀ start_str end_str s e now, parseHM start_str = some s →
      parseHM end_str = some e →
      ((s ≤ e → (is_order_within_working_hours start_str end_str now = true ↔
          (s ≤ now ∧ now ≤ e))) ∧
       (e < s → (is_order_within_working_hours start_str end_str now = true ↔
          (now ≥ s ∨ now ≤ e))))) ∧
    (∀ start_str end_str now,
      parseHM start_str = none ∨ parseHM end_str = none →
      is_order_within_working_hours start_str end_str now = true) ∧
    is_order_within_working_hours "22:00" "02:00" (23 * 3600 + 30 * 60) = true := by
  refine ⟨?_, ?_, by decide⟩
  · intro start_str end_str s e now hs he
    constructor
    · intro hle
      simp only [is_order_within_working_hours, hs, he, if_pos hle]
      simp
    · intro hlt
      simp only [is_order_within_working_hours, hs, he, if_neg (not_le.mpr hlt)]
      simp
  · intro start_str end_str now h
    rcases h with h | h
    · simp only [is_order_within_working_hours, h]
    · cases hs : parseHM start_str <;>
        simp only [is_order_within_working_hours, hs, h]

/-- **C4.** `validate_order` rejects the empty cart first (regardless of the
other parameters), then a subtotal below the configured minimum, then a
current time outside working hours, and succeeds otherwise — in exactly
that order. -/
theorem validate_order_spec :
    (∀ cfg now, validate_order [] cfg now = some .emptyCart) ∧
    (∀ cart cfg now, cart ≠ [] → cart_subtotal cart < cfg.min_order_amount →
      validate_order cart cfg now = some .belowMinimum) ∧
    (∀ cart cfg now, cart ≠ [] → cfg.min_order_amount ≤ cart_subtotal cart →
      is_order_within_working_hours cfg.wh_start cfg.wh_end now = false →
      validate_order cart cfg now = some .outsideHours) ∧
    (∀ cart cfg now, cart ≠ [] → cfg.min_order_amount ≤ cart_subtotal cart →
      is_order_within_working_hours cfg.wh_start cfg.wh_end now = true →
      validate_order cart cfg now = none) := by
  refine ⟨fun cfg now => rfl, ?_, ?_, ?_⟩
  · intro cart cfg now hne hlt
    simp [validate_order, hne, hlt]
  · intro cart cfg now hne hge hout
    simp [validate_order, hne, not_lt.mpr hge, hout]
  · intro cart cfg now hne hge hin
    simp [validate_order, hne, not_lt.mpr hge, hin]

/-- One promocode record from `promocodes.yaml`; `min_order`, `max_uses` and
`current_uses` are optional keys read with `.get(_, default)`. The expiry
date (a `'%Y-%m-%d'` string the code parses and only ever compares with
`datetime.now()`) is modelled as an integer timestamp. -/
structure Promo where
  code : String
  active : Bool
  min_order : Option Rat
  expiry_date : Int
  max_uses : Option Int
  current_uses : Option Int
deriving DecidableEq, Repr

/-- Python's `str.upper()` (ASCII letters, which is what `Char.toUpper`
maps, cover the promocodes the bot handles). -/
def pyUpper (s : String) : String := String.mk (s.toList.map Char.toUpper)

/-- `p['code'].upper() == code.upper()`, the case-insensitive lookup used by
`get_promocode`, `check_promocode`, `use_promocode` and `update_promocode`. -/
def codeMatches (p : Promo) (code : String) : Bool := pyUpper p.code == pyUpper code

/-- `DataManager.check_promocode` from `data_manager.py` (lines 240-265). -/
def check_promocode (promos : List Promo) (code : String) (order_total : Rat)
    (now : Int) : Option Promo :=
  match promos.find? (fun p => codeMatches p code && p.active) with
  | none => none
  | some promo =>
    if order_total < promo.min_order.getD 0 then none
    else if promo.expiry_date < now then none
    else
      match promo.max_uses with
      | some max_uses =>
        if max_uses ≤ promo.current_uses.getD 0 then none else some promo
      | none => some promo

/-- **C3.** Under case-folded uniqueness of codes, `check_promocode` returns
`none` exactly when the code is absent, inactive, the subtotal is below its
minimum, the expiry has passed, or the usage cap is reached; in particular
`current_uses = max_uses` yields `none`, while `current_uses = max_uses - 1`
with every other condition passing yields the promo. -/
theorem check_promocode_spec (promos : List Promo) (code : String) (total : Rat)
    (now : Int)
    (huniq : ∀ p ∈ promos, ∀ q ∈ promos,
      codeMatches p code = true → codeMatches q code = true → p = q) :
    (check_promocode promos code total now = none ↔
      (∀ p ∈ promos, codeMatches p code = false) ∨
      ∃ p ∈ promos, codeMatches p code = true ∧
        (p.active = false ∨ total < p.min_order.getD 0 ∨ p.expiry_date < now ∨
          ∃ m, p.max_uses = some m ∧ m ≤ p.current_uses.getD 0)) ∧
    (∀ p ∈ promos, codeMatches p code = true → ∀ m, p.max_uses = some m →
      p.current_uses.getD 0 = m → check_promocode promos code total now = none) ∧
    (∀ p ∈ promos, codeMatches p code = true → p.active = true →
      p.min_order.getD 0 ≤ total → now ≤ p.expiry_date →
      ∀ m, p.max_uses = some m → p.current_uses.getD 0 = m - 1 →
      check_promocode promos code total now = some p) := by
  refine ⟨?_, ?_, ?_⟩
  · cases hf : promos.find? (fun p => codeMatches p code && p.active) with
    | none =>
      have hall := List.find?_eq_none.mp hf
      have hrhs : (∀ p ∈ promos, codeMatches p code = false) ∨
          ∃ p ∈ promos, codeMatches p code = true ∧
            (p.active = false ∨ total < p.min_order.getD 0 ∨
              p.expiry_date < now ∨
              ∃ m, p.max_uses = some m ∧ m ≤ p.current_uses.getD 0) := by
        by_cases hex : ∃ p ∈ promos, codeMatches p code = true
        · obtain ⟨p, hp, hm⟩ := hex
          have hna := hall p hp
          simp only [Bool.and_eq_true, hm, true_and] at hna
          exact Or.inr ⟨p, hp, hm, Or.inl (by simpa using hna)⟩
        · push_neg at hex
          refine Or.inl fun p hp => ?_
          simpa using hex p hp
      exact iff_of_true (by simp [check_promocode, hf]) hrhs
    | some promo =>
      have hpm := List.find?_some hf
      have hmem := List.mem_of_find?_eq_some hf
      simp only [Bool.and_eq_true] at hpm
      obtain ⟨hmatch, hactive⟩ := hpm
      constructor
      · intro hnone
        refine Or.inr ⟨promo, hmem, hmatch, ?_⟩
        by_cases h1 : total < promo.min_order.getD 0
        · exact Or.inr (Or.inl h1)
        · by_cases h2 : promo.expiry_date < now
          · exact Or.inr (Or.inr (Or.inl h2))
          · cases hmu : promo.max_uses with
            | none => simp [check_promocode, hf, h1, h2, hmu] at hnone
            | some m =>
              by_cases h3 : m ≤ promo.current_uses.getD 0
              · exact Or.inr (Or.inr (Or.inr ⟨m, rfl, h3⟩))
              · simp [check_promocode, hf, h1, h2, hmu, h3] at hnone
      · intro hrhs
        rcases hrhs with hnone | ⟨q, hq, hqm, hrej⟩
        · rw [hnone promo hmem] at hmatch
          cases hmatch
        · have hqp : q = promo := huniq q hq promo hmem hqm hmatch
          subst hqp
          simp only [check_promocode, hf]
          rcases hrej with h | h | h | ⟨m, hmu, hle⟩
          · rw [hactive] at h
            cases h
          · simp [h]
          · by_cases h1 : total < q.min_order.getD 0
            · simp [h1]
            · simp [h1, h]
          · by_cases h1 : total < q.min_order.getD 0
            · simp [h1]
            · by_cases h2 : q.expiry_date < now
              · simp [h1, h2]
              · simp [h1, h2, hmu, hle]
  · intro p hp hmatch m hmu hcur
    cases hf : promos.find? (fun r => codeMatches r code && r.active) with
    | none => simp [check_promocode, hf]
    | some promo =>
      have hpm := List.find?_some hf
      have hmem := List.mem_of_find?_eq_some hf
      simp only [Bool.and_eq_true] at hpm
      have hqp : p = promo := huniq p hp promo hmem hmatch hpm.1
      subst hqp
      simp only [check_promocode, hf]
      by_cases h1 : total < p.min_order.getD 0
      · simp [h1]
      · by_cases h2 : p.expiry_date < now
        · simp [h1, h2]
        · simp [h1, h2, hmu, hcur]
  · intro p hp hmatch hactive hmin hexp m hmu hcur
    cases hf : promos.find? (fun r => codeMatches r code && r.active) with
    | none =>
      have hall := List.find?_eq_none.mp hf
      have := hall p hp
      simp [hmatch, hactive] at this
    | some promo =>
      have hpm := List.find?_some hf
      have hmem := List.mem_of_find?_eq_some hf
      simp only [Bool.and_eq_true] at hpm
      have hqp : p = promo := huniq p hp promo hmem hmatch hpm.1
      subst hqp
      simp only [check_promocode, hf]
      have h1 : ¬ total < p.min_order.getD 0 := not_lt.mpr hmin
      have h2 : ¬ p.expiry_date < now := not_lt.mpr hexp
      have h3 : ¬ m ≤ p.current_uses.getD 0 := by omega
      simp [h1, h2, hmu, h3]

/-- A sample promocode: one use left before its cap. -/
def promoEx : Promo :=
  { code := "SUSHI10", active := true, min_order := some 500,
    expiry_date := 100, max_uses := some 5, current_uses := some 4 }

/-- Witness for C3: with one redemption left (`current_uses = 4`,
`max_uses = 5`) and every other condition passing, the lowercase form of
the code is accepted. -/
theorem check_promocode_spec_witness :
    check_promocode [promoEx] "sushi10" 800 50 = some promoEx := by
  have h := check_promocode_spec [promoEx] "sushi10" 800 50 (by decide)
  exact h.2.2 promoEx (by decide) (by decide) (by decide) (by decide) (by decide)
    5 (by decide) (by decide)

/-- `DataManager.use_promocode` from `data_manager.py` (lines 275-283): the
first promo whose code matches case-insensitively gets
`current_uses = promo.get('current_uses', 0) + 1`; the loop then breaks. -/
def use_promocode : List Promo → String → List Promo
  | [], _ => []
  | p :: rest, code =>
    if codeMatches p code then
      { p with current_uses := some (p.current_uses.getD 0 + 1) } :: rest
    else p :: use_promocode rest code

/-- One redemption as `payment_method_callback` (`user_handlers.py` lines
697-706) performs it: a code is only stored in the session after
`check_promocode` accepted it, and `use_promocode` runs right after
`create_order`; a code that fails validation is never stored, so no
increment happens. -/
def redeem (promos : List Promo) (step : String × Rat × Int) : List Promo :=
  match check_promocode promos step.1 step.2.1 step.2.2 with
  | some _ => use_promocode promos step.1
  | none => promos

/-- A sequence of redemptions, one after the other. -/
def redeemAll (promos : List Promo) (steps : List (String × Rat × Int)) :
    List Promo :=
  steps.foldl redeem promos

/-- This promo's usage counter is within its cap (vacuous with no cap). -/
def underCap (p : Promo) : Bool :=
  match p.max_uses with
  | some m => decide (p.current_uses.getD 0 ≤ m)
  | none => true

/-- Invariant of §3: no promo's current-uses counter exceeds its cap. -/
def promoUsageInv (promos : List Promo) : Prop :=
  ∀ p ∈ promos, underCap p = true

/-- Promocodes are unique up to case folding (spec §4.2). -/
def promoCodesUnique (promos : List Promo) : Prop :=
  promos.Pairwise fun p q => pyUpper p.code ≠ pyUpper q.code

theorem check_promocode_eq_some (promos : List Promo) (code : String)
    (total : Rat) (now : Int) (p : Promo)
    (h : check_promocode promos code total now = some p) :
    List.find? (fun r => codeMatches r code && r.active) promos = some p ∧
    (∀ m, p.max_uses = some m → p.current_uses.getD 0 < m) := by
  cases hf : promos.find? (fun r => codeMatches r code && r.active) with
  | none => simp [check_promocode, hf] at h
  | some promo =>
    simp only [check_promocode, hf] at h
    by_cases h1 : total < promo.min_order.getD 0
    · simp [h1] at h
    · by_cases h2 : promo.expiry_date < now
      · simp [h1, h2] at h
      · rw [if_neg h1, if_neg h2] at h
        cases hmu : promo.max_uses with
        | none =>
          rw [hmu] at h
          simp only [Option.some.injEq] at h
          subst h
          exact ⟨rfl, fun m hm => by rw [hmu] at hm; cases hm⟩
        | some m =>
          rw [hmu] at h
          by_cases h3 : m ≤ promo.current_uses.getD 0
          · simp [h3] at h
          · simp only [if_neg h3, Option.some.injEq] at h
            subst h
            refine ⟨rfl, fun m' hm' => ?_⟩
            rw [hmu] at hm'
            cases hm'
            omega

theorem find?_decomp_of_unique (promos : List Promo) (code : String)
    (p : Promo) (huniq : promoCodesUnique promos)
    (hf : List.find? (fun r => codeMatches r code && r.active) promos = some p) :
    ∃ pre post, promos = pre ++ p :: post ∧
      ∀ x ∈ pre, codeMatches x code = false := by
  obtain ⟨hp, pre, post, heq, hpre⟩ := List.find?_eq_some.mp hf
  simp only [Bool.and_eq_true] at hp
  refine ⟨pre, post, heq, fun x hx => ?_⟩
  by_contra hcx
  have hxmatch : codeMatches x code = true := by
    cases hcm : codeMatches x code
    · exact absurd hcm hcx
    · rfl
  have hcross : pyUpper x.code ≠ pyUpper p.code := by
    rw [heq] at huniq
    have := (List.pairwise_append.mp huniq).2.2 x hx p (List.mem_cons_self _ _)
    exact this
  apply hcross
  have hx' : pyUpper x.code = pyUpper code := by
    simpa [codeMatches] using hxmatch
  have hp' : pyUpper p.code = pyUpper code := by
    simpa [codeMatches] using hp.1
  rw [hx', hp']

theorem use_promocode_decomp (pre post : List Promo) (p : Promo) (code : String)
    (hpre : ∀ x ∈ pre, codeMatches x code = false)
    (hp : codeMatches p code = true) :
    use_promocode (pre ++ p :: post) code =
      pre ++ { p with current_uses := some (p.current_uses.getD 0 + 1) } :: post := by
  induction pre with
  | nil => simp [use_promocode, hp]
  | cons x rest ih =>
    have hx : codeMatches x code = false := hpre x (List.mem_cons_self _ _)
    simp only [List.cons_append, use_promocode, hx, Bool.false_eq_true, if_false,
      List.append_eq]
    rw [ih fun y hy => hpre y (List.mem_cons_of_mem _ hy)]

theorem redeem_preserves (promos : List Promo) (code : String) (total : Rat)
    (now : Int) (huniq : promoCodesUnique promos) (hinv : promoUsageInv promos) :
    promoUsageInv (redeem promos (code, total, now)) ∧
    promoCodesUnique (redeem promos (code, total, now)) := by
  cases hc : check_promocode promos code total now with
  | none => simpa [redeem, hc] using ⟨hinv, huniq⟩
  | some p =>
    obtain ⟨hf, hcap⟩ := check_promocode_eq_some promos code total now p hc
    obtain ⟨pre, post, heq, hpre⟩ := find?_decomp_of_unique promos code p huniq hf
    have hpmatch : codeMatches p code = true := by
      have := List.find?_some hf
      simp only [Bool.and_eq_true] at this
      exact this.1
    have hred : redeem promos (code, total, now) =
        pre ++ { p with current_uses := some (p.current_uses.getD 0 + 1) } :: post := by
      simp only [redeem, hc]
      rw [heq]
      exact use_promocode_decomp pre post p code hpre hpmatch
    rw [hred]
    constructor
    · intro q hq
      rcases List.mem_append.mp hq with hq1 | hq2
      · exact hinv q (heq ▸ List.mem_append.mpr (Or.inl hq1))
      · rcases List.mem_cons.mp hq2 with hq3 | hq4
        · subst hq3
          cases hmu : p.max_uses with
          | none => simp [underCap, hmu]
          | some m =>
            have hlt := hcap m hmu
            simp only [underCap, hmu, Option.getD_some, decide_eq_true_eq]
            omega
        · exact hinv q (heq ▸ List.mem_append.mpr (Or.inr (List.mem_cons_of_mem _ hq4)))
    · rw [heq] at huniq
      unfold promoCodesUnique at huniq ⊢
      rw [List.pairwise_append] at huniq ⊢
      obtain ⟨hu1, hu2, hu3⟩ := huniq
      rw [List.pairwise_cons] at hu2 ⊢
      refine ⟨hu1, ⟨fun y hy => hu2.1 y hy, hu2.2⟩, ?_⟩
      intro x hx y hy
      rcases List.mem_cons.mp hy with hy1 | hy2
      · subst hy1
        exact hu3 x hx p (List.mem_cons_self _ _)
      · exact hu3 x hx y (List.mem_cons_of_mem _ hy2)

/-- **C9.** Redemptions (a successful `check_promocode` validation followed
by the `use_promocode` increment) keep every capped promo's usage counter at
or below its cap over any sequence of such operations; a failed validation
leaves the registry untouched, and a successful one bumps exactly the
redeemed promo's counter by one, leaving every other promo unchanged. -/
theorem promo_usage_cap_spec (promos : List Promo)
    (steps : List (String × Rat × Int))
    (huniq : promoCodesUnique promos) (hinv : promoUsageInv promos) :
    promoUsageInv (redeemAll promos steps) ∧
    (∀ code total now, check_promocode promos code total now = none →
      redeem promos (code, total, now) = promos) ∧
    (∀ code total now p, check_promocode promos code total now = some p →
      ∃ pre post, promos = pre ++ p :: post ∧
        redeem promos (code, total, now) =
          pre ++ { p with current_uses := some (p.current_uses.getD 0 + 1) }
            :: post) := by
  refine ⟨?_, ?_, ?_⟩
  · rw [redeemAll]
    induction steps generalizing promos with
    | nil => exact hinv
    | cons step rest ih =>
      obtain ⟨hi, hu⟩ := redeem_preserves promos step.1 step.2.1 step.2.2 huniq hinv
      simpa [List.foldl_cons] using ih (redeem promos step) hu hi
  · intro code total now hc
    simp [redeem, hc]
  · intro code total now p hc
    obtain ⟨hf, _⟩ := check_promocode_eq_some promos code total now p hc
    obtain ⟨pre, post, heq, hpre⟩ := find?_decomp_of_unique promos code p huniq hf
    have hpmatch : codeMatches p code = true := by
      have := List.find?_some hf
      simp only [Bool.and_eq_true] at this
      exact this.1
    refine ⟨pre, post, heq, ?_⟩
    simp only [redeem, hc]
    rw [heq]
    exact use_promocode_decomp pre post p code hpre hpmatch

/-- Witness for C9: one redemption against the sample registry keeps the
counter within its cap. -/
theorem promo_usage_cap_spec_witness :
    promoUsageInv (redeemAll [promoEx] [("sushi10", 800, 50)]) :=
  (promo_usage_cap_spec [promoEx] [("sushi10", 800, 50)]
    (by simp [promoCodesUnique]) (by unfold promoUsageInv; decide)).1

/-- One order record from `orders.yaml`, as `create_order` builds it:
the checkout draft plus `id`, `status`, `created_at`, and the
`delivered_at` key that `update_order_status` stamps. -/
structure Order where
  id : Int
  user_id : Int
  items : List CartItem
  subtotal : Rat
  delivery_cost : Rat
  discount : Rat
  total : Rat
  status : String
  created_at : String
  delivered_at : Option String
deriving DecidableEq, Repr

/-- `DataManager.update_order_status` from `data_manager.py` (lines 221-231):
the first order with the given id gets its status overwritten, plus a
`delivered_at` stamp when the new status is `'delivered'`; the loop breaks
there, every other order is written back unchanged. -/
def update_order_status : List Order → Int → String → String → List Order
  | [], _, _, _ => []
  | o :: rest, order_id, status, now =>
    if o.id = order_id then
      { o with
        status := status
        delivered_at := if status = "delivered" then some now else o.delivered_at }
        :: rest
    else o :: update_order_status rest order_id status now

theorem update_order_status_no_match (orders : List Order) (order_id : Int)
    (status now : String) (h : ∀ o ∈ orders, o.id ≠ order_id) :
    update_order_status orders order_id status now = orders := by
  induction orders with
  | nil => rfl
  | cons o rest ih =>
    simp only [update_order_status,
      if_neg (h o (List.mem_cons_self _ _)), List.cons.injEq, true_and]
    exact ih fun x hx => h x (List.mem_cons_of_mem _ hx)

theorem update_order_status_first_match (pre post : List Order) (o : Order)
    (order_id : Int) (status now : String)
    (hpre : ∀ x ∈ pre, x.id ≠ order_id) (ho : o.id = order_id) :
    update_order_status (pre ++ o :: post) order_id status now =
      pre ++ { o with
        status := status
        delivered_at := if status = "delivered" then some now else o.delivered_at }
        :: post := by
  induction pre with
  | nil => simp [update_order_status, ho]
  | cons x rest ih =>
    simp only [List.cons_append, update_order_status,
      if_neg (hpre x (List.mem_cons_self _ _)), List.append_eq, List.cons.injEq,
      true_and]
    exact ih fun y hy => hpre y (List.mem_cons_of_mem _ hy)

/-- **C5.** `update_order_status` overwrites the first matching order's
status unconditionally (any status value is accepted), stamps
`delivered_at` exactly when the new status is `'delivered'` and otherwise
leaves the existing stamp in place, changes no other field of that order
and no other order, and leaves the collection untouched when no order
matches. -/
theorem update_order_status_spec (orders : List Order) (order_id : Int)
    (status now : String) :
    ((∀ o ∈ orders, o.id ≠ order_id) →
      update_order_status orders order_id status now = orders) ∧
    (∀ pre o post, orders = pre ++ o :: post →
      (∀ x ∈ pre, x.id ≠ order_id) → o.id = order_id →
      update_order_status orders order_id status now =
        pre ++ { o with
          status := status
          delivered_at :=
            if status = "delivered" then some now else o.delivered_at }
          :: post) := by
  constructor
  · exact update_order_status_no_match orders order_id status now
  · intro pre o post heq hpre ho
    rw [heq]
    exact update_order_status_first_match pre post o order_id status now hpre ho

/-- `ORDER_STATUSES` from `order_handlers.py` (line 21). -/
def ORDER_STATUSES : List String :=
  ["new", "accepted", "preparing", "on_the_way", "delivered"]

/-- `get_next_status` from `order_handlers.py` (lines 24-30). -/
def get_next_status (current_status : String) : String :=
  if current_status ∈ ORDER_STATUSES then
    let current_index := ORDER_STATUSES.findIdx (fun s => s == current_status)
    if current_index < ORDER_STATUSES.length - 1 then
      ORDER_STATUSES.getD (current_index + 1) current_status
    else current_status
  else current_status

/-- `cancel_order_callback` from `user_handlers.py` (lines 868-889), its
effect on the order store: a missing order or a status among
`on_the_way`/`delivered`/`cancelled` is answered with an alert and the
store is left untouched; otherwise the status is set to `'cancelled'`. -/
def cancel_order (orders : List Order) (order_id : Int) (now : String) :
    List Order :=
  match orders.find? (fun o => o.id == order_id) with
  | none => orders
  | some o =>
    if o.status ∈ (["on_the_way", "delivered", "cancelled"] : List String) then
      orders
    else update_order_status orders order_id "cancelled" now

/-- **C7.** Customer cancellation leaves the store unchanged when the
order's status is `on_the_way`, `delivered` or `cancelled`; for a first
matching order in any other status it rewrites exactly that order's status
to `cancelled`; and the normal forward flow (`get_next_status`) does not
move an order out of `delivered` or `cancelled`. -/
theorem cancel_order_spec (orders : List Order) (order_id : Int) (now : String) :
    (∀ o, orders.find? (fun r => r.id == order_id) = some o →
      o.status ∈ (["on_the_way", "delivered", "cancelled"] : List String) →
      cancel_order orders order_id now = orders) ∧
    (∀ pre o post, orders = pre ++ o :: post →
      (∀ x ∈ pre, x.id ≠ order_id) → o.id = order_id →
      o.status ∉ (["on_the_way", "delivered", "cancelled"] : List String) →
      cancel_order orders order_id now =
        pre ++ { o with status := "cancelled" } :: post) ∧
    get_next_status "delivered" = "delivered" ∧
    get_next_status "cancelled" = "cancelled" := by
  refine ⟨?_, ?_, by decide, by decide⟩
  · intro o hf hst
    simp [cancel_order, hf, hst]
  · intro pre o post heq hpre ho hst
    have hf : orders.find? (fun r => r.id == order_id) = some o := by
      rw [heq]
      refine List.find?_eq_some.mpr ⟨by simp [ho], pre, post, rfl, ?_⟩
      intro x hx
      simp [hpre x hx]
    have hupd := update_order_status_first_match pre post o order_id
      "cancelled" now hpre ho
    rw [heq] at hf ⊢
    simp only [cancel_order, hf, if_neg hst]
    rw [hupd]
    simp

/-- One product record from `products.yaml`; `available` is read with
`product.get('available', True)`, so a missing key counts as available. -/
structure Product where
  id : Int
  name : String
  price : Rat
  available : Option Bool
deriving DecidableEq, Repr

/-- `DataManager.get_product` from `data_manager.py` (lines 61-65). -/
def get_product (products : List Product) (product_id : Int) : Option Product :=
  products.find? (fun p => p.id == product_id)

/-- The cart-building loop of `reorder_callback` (`user_handlers.py` lines
848-858): each historical line whose product exists and is available is kept
with its historical name and quantity but the product's current price. -/
def reorder_cart (products : List Product) : List CartItem → List CartItem
  | [] => []
  | item :: rest =>
    match get_product products item.product_id with
    | some product =>
      if product.available.getD true then
        { product_id := item.product_id
          product_name := item.product_name
          price := product.price  -- Use current price
          quantity := item.quantity } :: reorder_cart products rest
      else reorder_cart products rest
    | none => reorder_cart products rest

/-- `reorder_callback` (`user_handlers.py` lines 837-865) on a found order:
`none` is the "Товары из этого заказа недоступны" rejection
(`NoAvailableItems`), in which case the session cart is not replaced. -/
def reorder (products : List Product) (order_items : List CartItem) :
    Option (List CartItem) :=
  let cart := reorder_cart products order_items
  if cart = [] then none else some cart

theorem reorder_cart_nil_iff (products : List Product)
    (order_items : List CartItem) :
    reorder_cart products order_items = [] ↔
      ∀ item ∈ order_items, ∀ p, get_product products item.product_id = some p →
        p.available.getD true = false := by
  induction order_items with
  | nil => simp [reorder_cart]
  | cons item rest ih =>
    cases hg : get_product products item.product_id with
    | none =>
      simp only [reorder_cart, hg, ih]
      constructor
      · intro h x hx p hp
        rcases List.mem_cons.mp hx with hx1 | hx2
        · subst hx1
          rw [hg] at hp
          cases hp
        · exact h x hx2 p hp
      · intro h x hx p hp
        exact h x (List.mem_cons_of_mem _ hx) p hp
    | some product =>
      cases hav : product.available.getD true with
      | true =>
        simp only [reorder_cart, hg, hav, if_true]
        constructor
        · intro h
          cases h
        · intro h
          have := h item (List.mem_cons_self _ _) product hg
          rw [hav] at this
          cases this
      | false =>
        simp only [reorder_cart, hg, hav, Bool.false_eq_true, if_false, ih]
        constructor
        · intro h x hx p hp
          rcases List.mem_cons.mp hx with hx1 | hx2
          · subst hx1
            rw [hg] at hp
            cases hp
            exact hav
          · exact h x hx2 p hp
        · intro h x hx p hp
          exact h x (List.mem_cons_of_mem _ hx) p hp

/-- **C6.** A reorder fails with the no-available-items rejection exactly
when every historical line's product is missing or unavailable; every line
of the rebuilt cart keeps a historical line's product id, name and quantity
but carries the product's current price; every available line is kept; and
an order with one unavailable and one available product yields exactly the
available line, repriced. -/
theorem reorder_spec (products : List Product) (order_items : List CartItem) :
    (reorder products order_items = none ↔
      ∀ item ∈ order_items, ∀ p, get_product products item.product_id = some p →
        p.available.getD true = false) ∧
    (∀ l ∈ reorder_cart products order_items, ∃ item ∈ order_items, ∃ p,
      get_product products item.product_id = some p ∧
      p.available.getD true = true ∧
      l = { product_id := item.product_id, product_name := item.product_name,
            price := p.price, quantity := item.quantity }) ∧
    (∀ item ∈ order_items, ∀ p, get_product products item.product_id = some p →
      p.available.getD true = true →
      ({ product_id := item.product_id, product_name := item.product_name,
         price := p.price, quantity := item.quantity } : CartItem)
        ∈ reorder_cart products order_items) ∧
    reorder_cart
        [⟨1, "Филадельфия", 480, some false⟩, ⟨2, "Калифорния", 390, some true⟩]
        [⟨1, "Филадельфия", 450, 1⟩, ⟨2, "Калифорния", 350, 2⟩] =
      [⟨2, "Калифорния", 390, 2⟩] := by
  refine ⟨?_, ?_, ?_, by rfl⟩
  · rw [← reorder_cart_nil_iff products order_items]
    unfold reorder
    constructor
    · intro h
      by_cases hc : reorder_cart products order_items = []
      · exact hc
      · simp [hc] at h
    · intro h
      simp [h]
  · intro l hl
    induction order_items with
    | nil => simp [reorder_cart] at hl
    | cons item rest ih =>
      cases hg : get_product products item.product_id with
      | none =>
        simp only [reorder_cart, hg] at hl
        obtain ⟨x, hx, p, hp⟩ := ih hl
        exact ⟨x, List.mem_cons_of_mem _ hx, p, hp⟩
      | some product =>
        cases hav : product.available.getD true with
        | false =>
          simp only [reorder_cart, hg, hav, Bool.false_eq_true, if_false] at hl
          obtain ⟨x, hx, p, hp⟩ := ih hl
          exact ⟨x, List.mem_cons_of_mem _ hx, p, hp⟩
        | true =>
          simp only [reorder_cart, hg, hav, if_true] at hl
          rcases List.mem_cons.mp hl with hl1 | hl2
          · exact ⟨item, List.mem_cons_self _ _, product, hg, hav, hl1⟩
          · obtain ⟨x, hx, p, hp⟩ := ih hl2
            exact ⟨x, List.mem_cons_of_mem _ hx, p, hp⟩
  · intro x hx p hp hav
    induction order_items with
    | nil => cases hx
    | cons item rest ih =>
      rcases List.mem_cons.mp hx with hx1 | hx2
      · subst hx1
        simp only [reorder_cart, hp, hav, if_true]
        exact List.mem_cons_self _ _
      · cases hg : get_product products item.product_id with
        | none =>
          simp only [reorder_cart, hg]
          exact ih hx2
        | some product =>
          cases hav2 : product.available.getD true with
          | false =>
            simp only [reorder_cart, hg, hav2, Bool.false_eq_true, if_false]
            exact ih hx2
          | true =>
            simp only [reorder_cart, hg, hav2, if_true]
            exact List.mem_cons_of_mem _ (ih hx2)

/-- The `+`/`-` buttons of the product-quantity picker, `quantity_callback`
(`user_handlers.py` lines 185-198): `minus = true` stands for a
`qty_minus_…` callback, `minus = false` for `qty_plus_…`. -/
def quantity_step (current_qty : Int) (minus : Bool) : Int :=
  if minus ∧ current_qty > 1 then current_qty - 1
  else if ¬minus ∧ current_qty < 99 then current_qty + 1
  else current_qty

/-- `existing_item['quantity'] += quantity` inside `add_to_cart_callback`:
the found dictionary is the first cart line with this product id, mutated
in place. -/
def bump_first : List CartItem → Int → Int → List CartItem
  | [], _, _ => []
  | item :: rest, product_id, quantity =>
    if item.product_id = product_id then
      { item with quantity := item.quantity + quantity } :: rest
    else item :: bump_first rest product_id quantity

/-- `add_to_cart_callback` from `user_handlers.py` (lines 212-241): the
selected quantity either merges into an existing line for the same product
or appends a fresh line denormalising the product's name and price. -/
def add_to_cart (cart : List CartItem) (product : Product) (quantity : Int) :
    List CartItem :=
  match cart.find? (fun item => item.product_id == product.id) with
  | some _ => bump_first cart product.id quantity
  | none =>
    cart ++ [{ product_id := product.id, product_name := product.name,
               price := product.price, quantity := quantity }]

/-- `cart_modify_callback` from `user_handlers.py` (lines 310-330): the
first line with this product id is incremented or decremented; a line whose
quantity reaches 0 is removed (`cart.remove(item)`); the loop then breaks. -/
def cart_modify : List CartItem → Int → Bool → List CartItem
  | [], _, _ => []
  | item :: rest, product_id, minus =>
    if item.product_id = product_id then
      if minus then
        if item.quantity - 1 ≤ 0 then rest
        else { item with quantity := item.quantity - 1 } :: rest
      else { item with quantity := item.quantity + 1 } :: rest
    else item :: cart_modify rest product_id minus

/-- The invariant C10 claims of every cart line: `1 ≤ quantity ≤ 99`. -/
def cartQtyInRange (cart : List CartItem) : Prop :=
  ∀ item ∈ cart, 1 ≤ item.quantity ∧ item.quantity ≤ 99

/-- The part of the invariant the handlers actually maintain. -/
def cartQtyMin (cart : List CartItem) : Prop :=
  ∀ item ∈ cart, 1 ≤ item.quantity

/-- **C10 counterexample.** A cart whose single line already has quantity 99
satisfies the claimed invariant, yet the cart-level `+` button
(`cart_modify … minus = false`) drives it to 100: the 99 cap is not
enforced by the cart operations. -/
theorem cart_quantity_cap_counterexample :
    cartQtyInRange [⟨7, "Ролл", 250, 99⟩] ∧
    cart_modify [⟨7, "Ролл", 250, 99⟩] 7 false = [⟨7, "Ролл", 250, 100⟩] ∧
    ¬ cartQtyInRange (cart_modify [⟨7, "Ролл", 250, 99⟩] 7 false) := by
  refine ⟨?_, rfl, ?_⟩
  · unfold cartQtyInRange
    decide
  · unfold cartQtyInRange
    decide

/-- **C10 (amended).** Adding a product (with the selector's quantity, which
is at least 1) and the cart-level `+`/`-` buttons preserve every line's
quantity being at least 1; decrementing a line of quantity 1 removes it
rather than keeping a zero line; and the pre-add quantity selector itself
stays within 1..99. The 99 cap holds only for the selector, not for cart
lines (see the counterexample). -/
theorem cart_ops_spec :
    (∀ cart product quantity, 1 ≤ quantity → cartQtyMin cart →
      cartQtyMin (add_to_cart cart product quantity)) ∧
    (∀ cart product_id minus, cartQtyMin cart →
      cartQtyMin (cart_modify cart product_id minus)) ∧
    (∀ pre item post product_id,
      (∀ x ∈ pre, x.product_id ≠ product_id) → item.product_id = product_id →
      item.quantity = 1 →
      cart_modify (pre ++ item :: post) product_id true = pre ++ post) ∧
    (∀ q minus, 1 ≤ q → q ≤ 99 →
      1 ≤ quantity_step q minus ∧ quantity_step q minus ≤ 99) := by
  refine ⟨?_, ?_, ?_, ?_⟩
  · intro cart product quantity hq hmin
    unfold add_to_cart
    cases hf : cart.find? (fun item => item.product_id == product.id) with
    | none =>
      intro x hx
      rcases List.mem_append.mp hx with hx1 | hx2
      · exact hmin x hx1
      · rcases List.mem_cons.mp hx2 with hx3 | hx4
        · subst hx3
          exact hq
        · cases hx4
    | some found =>
      clear hf
      induction cart with
      | nil => intro x hx; cases hx
      | cons item rest ih =>
        by_cases hid : item.product_id = product.id
        · simp only [bump_first, if_pos hid]
          intro x hx
          rcases List.mem_cons.mp hx with hx1 | hx2
          · subst hx1
            have := hmin item (List.mem_cons_self _ _)
            simp only
            omega
          · exact hmin x (List.mem_cons_of_mem _ hx2)
        · simp only [bump_first, if_neg hid]
          intro x hx
          rcases List.mem_cons.mp hx with hx1 | hx2
          · subst hx1
            exact hmin x (List.mem_cons_self _ _)
          · exact ih (fun y hy => hmin y (List.mem_cons_of_mem _ hy)) x hx2
  · intro cart product_id minus hmin
    induction cart with
    | nil => intro x hx; cases hx
    | cons item rest ih =>
      unfold cart_modify
      by_cases hid : item.product_id = product_id
      · rw [if_pos hid]
        cases minus with
        | true =>
          simp only [if_true]
          by_cases hz : item.quantity - 1 ≤ 0
          · rw [if_pos hz]
            exact fun x hx => hmin x (List.mem_cons_of_mem _ hx)
          · rw [if_neg hz]
            intro x hx
            rcases List.mem_cons.mp hx with hx1 | hx2
            · subst hx1
              simp only
              omega
            · exact hmin x (List.mem_cons_of_mem _ hx2)
        | false =>
          simp only [Bool.false_eq_true, if_false]
          intro x hx
          rcases List.mem_cons.mp hx with hx1 | hx2
          · subst hx1
            have := hmin item (List.mem_cons_self _ _)
            simp only
            omega
          · exact hmin x (List.mem_cons_of_mem _ hx2)
      · rw [if_neg hid]
        intro x hx
        rcases List.mem_cons.mp hx with hx1 | hx2
        · subst hx1
          exact hmin x (List.mem_cons_self _ _)
        · exact ih (fun y hy => hmin y (List.mem_cons_of_mem _ hy)) x hx2
  · intro pre item post product_id hpre hid hq
    induction pre with
    | nil =>
      simp only [List.nil_append, cart_modify, if_pos hid, if_true]
      rw [if_pos (by omega)]
    | cons x rest ih =>
      simp only [List.cons_append, cart_modify,
        if_neg (hpre x (List.mem_cons_self _ _)), List.append_eq, List.cons.injEq,
        true_and]
      exact ih fun y hy => hpre y (List.mem_cons_of_mem _ hy)
  · intro q minus h1 h2
    cases minus <;> simp only [quantity_step] <;> split_ifs <;>
      refine ⟨by omega, by omega⟩

/-- One user record from `users.yaml`; the statistics fields are read with
`.get(_, 0)`, so they are optional. -/
structure User where
  telegram_id : Int
  bonus_points : Option Int
  total_orders : Option Int
deriving DecidableEq, Repr

/-- `DataManager.get_user` from `data_manager.py` (lines 93-97). -/
def get_user (users : List User) (telegram_id : Int) : Option User :=
  users.find? (fun u => u.telegram_id == telegram_id)

/-- `DataManager.update_user` (lines 129-137): the first matching record is
merged in place with the updates dict; `f` is the merge a call site
performs; the loop then breaks. -/
def update_user : List User → Int → (User → User) → List User
  | [], _, _ => []
  | u :: rest, telegram_id, f =>
    if u.telegram_id = telegram_id then f u :: rest
    else u :: update_user rest telegram_id f

/-- `DataManager.add_bonus_points` (lines 148-153): re-reads the user, then
merges `bonus_points = current + points`. -/
def add_bonus_points (users : List User) (telegram_id : Int) (points : Int) :
    List User :=
  match get_user users telegram_id with
  | some user =>
    update_user users telegram_id
      (fun u => { u with bonus_points := some (user.bonus_points.getD 0 + points) })
  | none => users

/-- Python's `int(q)`: truncation toward zero. -/
def pyInt (q : Rat) : Int := if 0 ≤ q then ⌊q⌋ else ⌈q⌉

/-- Python's `round` to the nearest integer, halves to the even neighbour. -/
def roundHalfEven (q : Rat) : Int :=
  if q - ⌊q⌋ < 1 / 2 then ⌊q⌋
  else if 1 / 2 < q - ⌊q⌋ then ⌊q⌋ + 1
  else if 2 ∣ ⌊q⌋ then ⌊q⌋ else ⌊q⌋ + 1

/-- Python's `round(q, 2)`, over exact rationals. -/
def round2 (q : Rat) : Rat := (roundHalfEven (q * 100) : Rat) / 100

/-- The `statistics` document inside `settings.yaml`. -/
structure Stats where
  total_orders : Int
  total_revenue : Rat
  average_order : Rat
deriving DecidableEq, Repr

/-- `DataManager._update_statistics` from `data_manager.py` (lines 319-333). -/
def update_statistics (stats : Stats) (order_total : Rat) : Stats :=
  let total_orders := stats.total_orders + 1
  let total_revenue := stats.total_revenue + order_total
  let average_order :=
    if 0 < total_orders then total_revenue / (total_orders : Rat) else 0
  { total_orders := total_orders
    total_revenue := total_revenue
    average_order := round2 average_order }

/-- The order dict `payment_method_callback` passes to `create_order`,
before the store assigns `id`, `status` and `created_at`. -/
structure OrderDraft where
  user_id : Int
  items : List CartItem
  subtotal : Rat
  delivery_cost : Rat
  discount : Rat
  total : Rat
deriving DecidableEq, Repr

/-- The YAML files `create_order` touches: `orders.yaml`, `users.yaml` and
the statistics inside `settings.yaml`. -/
structure DB where
  orders : List Order
  users : List User
  stats : Stats
deriving DecidableEq, Repr

/-- `DataManager.create_order` from `data_manager.py` (lines 156-185):
`max([o['id'] …], default=0) + 1` becomes `max?.getD 0 + 1`, the float
literal `0.01` the exact `1 / 100`. -/
def create_order (db : DB) (draft : OrderDraft) (now : String) : Int × DB :=
  let order_id := (db.orders.map Order.id).max?.getD 0 + 1
  let order : Order :=
    { id := order_id, user_id := draft.user_id, items := draft.items,
      subtotal := draft.subtotal, delivery_cost := draft.delivery_cost,
      discount := draft.discount, total := draft.total,
      status := "new", created_at := now, delivered_at := none }
  let db1 : DB := { db with orders := db.orders ++ [order] }
  let db2 : DB :=
    match get_user db1.users draft.user_id with
    | some user =>
      let dbA : DB :=
        { db1 with
          users := update_user db1.users draft.user_id
            (fun u => { u with total_orders := some (user.total_orders.getD 0 + 1) }) }
      -- Add bonus points (1% of order total)
      let bonus := pyInt (draft.total * (1 / 100))
      if 0 < bonus then
        { dbA with users := add_bonus_points dbA.users draft.user_id bonus }
      else dbA
    | none => db1
  (order_id, { db2 with stats := update_statistics db2.stats draft.total })

theorem get_user_update_user (users : List User) (telegram_id : Int)
    (f : User → User) (hf : ∀ u, (f u).telegram_id = u.telegram_id) :
    get_user (update_user users telegram_id f) telegram_id =
      (get_user users telegram_id).map f := by
  induction users with
  | nil => rfl
  | cons u rest ih =>
    by_cases h : u.telegram_id = telegram_id
    · have hpos : (u.telegram_id == telegram_id) = true := beq_iff_eq.mpr h
      have hpos' : ((f u).telegram_id == telegram_id) = true :=
        beq_iff_eq.mpr (by rw [hf u, h])
      simp only [update_user, if_pos h, get_user, List.find?, hpos, hpos']
      rfl
    · have hneg : (u.telegram_id == telegram_id) = false := by
        simpa using h
      simp only [update_user, if_neg h, get_user, List.find?, hneg]
      exact ih

/-- **C2.** `create_order` assigns id `max existing + 1` (1 on an empty
collection), stamps status `new` and the creation timestamp, appends the
order, bumps the owning user's lifetime order count by one, credits
`floor(total · 0.01)` bonus points when that is positive, and advances the
statistics: count + 1, revenue + total, average recomputed (and rounded to
two decimals) from the new totals. -/
theorem create_order_spec (db : DB) (draft : OrderDraft) (now : String)
    (user : User) (hu : get_user db.users draft.user_id = some user)
    (ht : 0 ≤ draft.total) (hs : 0 ≤ db.stats.total_orders) :
    (create_order db draft now).1 = (db.orders.map Order.id).max?.getD 0 + 1 ∧
    (db.orders = [] → (create_order db draft now).1 = 1) ∧
    (create_order db draft now).2.orders = db.orders ++
      [{ id := (db.orders.map Order.id).max?.getD 0 + 1, user_id := draft.user_id,
         items := draft.items, subtotal := draft.subtotal,
         delivery_cost := draft.delivery_cost, discount := draft.discount,
         total := draft.total, status := "new", created_at := now,
         delivered_at := none }] ∧
    get_user (create_order db draft now).2.users draft.user_id = some
      { user with
        total_orders := some (user.total_orders.getD 0 + 1)
        bonus_points :=
          if 0 < ⌊draft.total / 100⌋ then
            some (user.bonus_points.getD 0 + ⌊draft.total / 100⌋)
          else user.bonus_points } ∧
    (create_order db draft now).2.stats.total_orders =
      db.stats.total_orders + 1 ∧
    (create_order db draft now).2.stats.total_revenue =
      db.stats.total_revenue + draft.total ∧
    (create_order db draft now).2.stats.average_order =
      round2 ((db.stats.total_revenue + draft.total) /
        ((db.stats.total_orders + 1 : Int) : Rat)) := by
  have hbonus : pyInt (draft.total * (1 / 100)) = ⌊draft.total / 100⌋ := by
    unfold pyInt
    rw [if_pos (by positivity), mul_one_div]
  have hid : ∀ u : User,
      (({ u with total_orders := some (user.total_orders.getD 0 + 1) } : User)).telegram_id
        = u.telegram_id := fun u => rfl
  have hA : get_user (update_user db.users draft.user_id
      (fun u => { u with total_orders := some (user.total_orders.getD 0 + 1) }))
      draft.user_id = some { user with
        total_orders := some (user.total_orders.getD 0 + 1) } := by
    rw [get_user_update_user _ _ _ hid, hu]
    rfl
  refine ⟨rfl, ?_, ?_, ?_, ?_, ?_, ?_⟩
  · intro h
    show (db.orders.map Order.id).max?.getD 0 + 1 = 1
    rw [h]
    rfl
  · simp only [create_order, hu]
    split <;> rfl
  · simp only [create_order, hu]
    rw [hbonus]
    by_cases hb : 0 < ⌊draft.total / 100⌋
    · rw [if_pos hb, if_pos hb]
      simp only [add_bonus_points, hA]
      rw [get_user_update_user _ _
        (fun u => { u with
          bonus_points := some (user.bonus_points.getD 0 + ⌊draft.total / 100⌋) })
        (fun u => rfl), hA]
      rfl
    · rw [if_neg hb, if_neg hb]
      exact hA
  · simp only [create_order, hu]
    split <;> rfl
  · simp only [create_order, hu]
    split <;> rfl
  · have hpos : (0 : Int) < db.stats.total_orders + 1 := by omega
    simp only [create_order, hu]
    split <;> (simp only [update_statistics]; rw [if_pos hpos])

/-- A sample user for the C2 witness: 3 bonus points, 2 lifetime orders. -/
def userEx : User := ⟨42, some 3, some 2⟩

/-- A sample store for the C2 witness: no orders yet. -/
def dbEx : DB := ⟨[], [userEx], ⟨0, 0, 0⟩⟩

/-- A sample checkout draft with total 1000 for the C2 witness. -/
def draftEx : OrderDraft := ⟨42, [⟨2, "Калифорния", 500, 2⟩], 1000, 0, 0, 1000⟩

/-- Witness for C2: on an empty order collection the new order gets id 1,
and a total of 1000 credits exactly 10 bonus points (3 + 10 = 13). -/
theorem create_order_spec_witness :
    (create_order dbEx draftEx "2024-01-01 12:00:00").1 = 1 ∧
    get_user (create_order dbEx draftEx "2024-01-01 12:00:00").2.users
        draftEx.user_id = some ⟨42, some 13, some 3⟩ := by
  have hfl : (⌊draftEx.total / 100⌋ : Int) = 10 := by
    show (⌊(1000 : Rat) / 100⌋ : Int) = 10
    norm_num
  have h := create_order_spec dbEx draftEx "2024-01-01 12:00:00" userEx rfl
    (by norm_num [draftEx]) (by norm_num [dbEx])
  refine ⟨h.2.1 rfl, ?_⟩
  rw [h.2.2.2.1, hfl]
  norm_num [userEx]

end Dostavka
